import Mathlib

/-!
Formal model of the legion backend's routing core: the agent registry
(`app/core/agent_registry.py`), the router agent's selection, dispatch,
classification and aggregation logic (`app/agents/router.py`), and the
validation harness (`app/agents/testing.py`).  Python strings are embedded
as lists of characters where character-level parsing matters, and Python
`float` values as exact rationals.
-/

namespace Legion

/-- Python `str` is modelled as a list of characters. -/
abbrev Str := List Char

/-- Whitespace test used by Python `str.strip()` and bare `str.split()`. -/
def isPySpace (c : Char) : Bool :=
  c = ' ' || c = '\t' || c = '\n' || c = '\r' || c = '\x0b' || c = '\x0c'

/-- Python `str.strip()`: drop whitespace from both ends. -/
def pyStrip (s : Str) : Str :=
  ((s.dropWhile isPySpace).reverse.dropWhile isPySpace).reverse

/-- ASCII lower-casing of one character; Python `str.lower()` restricted to
the ASCII range, which covers every label this system parses. -/
def lowerChar (c : Char) : Char :=
  if 'A' ≤ c ∧ c ≤ 'Z' then Char.ofNat (c.toNat + 32) else c

/-- Python `str.lower()` (ASCII fragment). -/
def pyLower (s : Str) : Str := s.map lowerChar

/-- Helper for `splitSep`: scans the string character by character; a positive
`skip` records how many characters of an already-recognised separator
occurrence remain to be consumed. -/
def splitSepGo (sep : Str) : Str → Nat → List Str
  | [], _ => [[]]
  | _ :: rest, Nat.succ skip => splitSepGo sep rest skip
  | c :: rest, 0 =>
    if sep ≠ [] ∧ sep.isPrefixOf (c :: rest) = true then
      [] :: splitSepGo sep rest (sep.length - 1)
    else
      match splitSepGo sep rest 0 with
      | [] => [[c]]
      | p :: ps => (c :: p) :: ps

/-- Python `s.split(sep)` for a non-empty separator: split at each
left-to-right non-overlapping occurrence of `sep`, keeping empty pieces.
The code never passes an empty separator; here it would never split. -/
def splitSep (sep : Str) (s : Str) : List Str :=
  splitSepGo sep s 0

/-- Python `sub in s` membership test, for a non-empty pattern. -/
def containsSub (sub : Str) (s : Str) : Bool :=
  match s with
  | [] => false
  | c :: rest => sub.isPrefixOf (c :: rest) || containsSub sub rest

/-- Python `sep.join(xs)`. -/
def joinWith (sep : String) : List String → String
  | [] => ""
  | [x] => x
  | x :: xs => x ++ sep ++ joinWith sep xs

/-- Closed intent enumeration, `IntentType` in `app/models/agent_metadata.py`. -/
inductive IntentType where
  | product_info
  | customer_support
  | general_question
  | system_testing
deriving DecidableEq, Repr

/-- String value of each enum member. -/
def IntentType.value : IntentType → Str
  | .product_info => "product_info".data
  | .customer_support => "customer_support".data
  | .general_question => "general_question".data
  | .system_testing => "system_testing".data

/-- Handler metadata, `AgentMetadata` in `app/models/agent_metadata.py`, with
the live handler instance abstracted to an opaque numeric id. -/
structure AgentMetadata where
  name : String
  description : String
  intents : List IntentType
  capabilities : List String
  priority : Int
  requires_user_id : Bool
  agent_instance : Nat
deriving DecidableEq, Repr

/-- The registry's `_agents` dict as an insertion-ordered association list,
since a Python `dict` preserves insertion order. -/
abbrev Registry := List (String × AgentMetadata)

/-- Python `d[k] = v` on an insertion-ordered dict: overwrite the value in
place when the key is present, otherwise append at the end. -/
def dictInsert (d : Registry) (k : String) (v : AgentMetadata) : Registry :=
  match d with
  | [] => [(k, v)]
  | (k', v') :: rest =>
    if k' = k then (k, v) :: rest else (k', v') :: dictInsert rest k v

/-- Method `AgentRegistry.register`: `self._agents[metadata.name] = metadata`. -/
def register (d : Registry) (m : AgentMetadata) : Registry :=
  dictInsert d m.name m

/-- Method `AgentRegistry.get_agent`: `self._agents.get(name)`. -/
def get_agent (d : Registry) (n : String) : Option AgentMetadata :=
  match d.find? (fun p => p.1 == n) with
  | some p => some p.2
  | none => none

/-- Method `AgentRegistry.find_agents_by_intent`: registered metadata in
insertion order, filtered to entries listing the intent. -/
def find_agents_by_intent (d : Registry) (i : IntentType) : List AgentMetadata :=
  (d.map Prod.snd).filter (fun a => a.intents.contains i)

/-- Descending-priority order used by
`sorted(candidates, key=lambda a: a.priority, reverse=True)`. -/
def prioGE (a b : AgentMetadata) : Prop := b.priority ≤ a.priority

instance instDecPrioGE : DecidableRel prioGE :=
  fun a b => (inferInstance : Decidable (b.priority ≤ a.priority))

instance instTotalPrioGE : IsTotal AgentMetadata prioGE :=
  ⟨fun a b => le_total b.priority a.priority⟩

instance instTransPrioGE : IsTrans AgentMetadata prioGE :=
  ⟨fun _ _ _ hab hbc => le_trans hbc hab⟩

/-- Stable descending sort of candidates by priority, as Python's `sorted`
with `reverse=True`. -/
def sortByPriorityDesc (candidates : List AgentMetadata) : List AgentMetadata :=
  List.insertionSort prioGE candidates

/-- Method `RouterAgent._select_agents`: empty list for no candidates, the sole
instance for one candidate; otherwise sort by priority descending, take the
top, and add the second exactly when its priority ties the top.  The last two
branches of the inner match are unreachable, since sorting preserves length. -/
def select_agents (candidates : List AgentMetadata) : List Nat :=
  match candidates with
  | [] => []
  | [c] => [c.agent_instance]
  | a :: b :: t =>
    match sortByPriorityDesc (a :: b :: t) with
    | primary :: secondary :: _ =>
      if secondary.priority = primary.priority then
        [primary.agent_instance, secondary.agent_instance]
      else
        [primary.agent_instance]
    | [primary] => [primary.agent_instance]
    | [] => []

/-- Label searched for by the intent branch of `RouterAgent._classify_intent`. -/
def intentLabel : Str := "intent:".data

/-- Label searched for by the needs-agent branch of `_classify_intent`. -/
def needsLabel : Str := "needs_agent:".data

/-- Reserved key added to the dynamic intent map. -/
def casualGreetingKey : Str := "casual_greeting".data

/-- Word compared against the needs-agent field. -/
def trueWord : Str := "true".data

/-- Line separator used when splitting oracle replies. -/
def newlineSep : Str := "\n".data

/-- One step of the parsing loop in `RouterAgent._classify_intent`; the state
is the pair `(intent_str, needs_agent)`.  A line containing `"intent:"` sets
`intent_str` to the text after the first occurrence, stripped; otherwise a
line containing `"needs_agent:"` sets `needs_agent` to whether that text
equals `"true"`; any other line leaves the state unchanged. -/
def classifyStep (st : Option Str × Bool) (line : Str) : Option Str × Bool :=
  if containsSub intentLabel line then
    (some (pyStrip ((splitSep intentLabel line).getD 1 [])), st.2)
  else if containsSub needsLabel line then
    (st.1, pyStrip ((splitSep needsLabel line).getD 1 []) == trueWord)
  else st

/-- The parsing loop of `_classify_intent` over the reply's lines, starting
from `intent_str = None`, `needs_agent = True`. -/
def classify_lines (lines : List Str) : Option Str × Bool :=
  lines.foldl classifyStep (none, true)

/-- Dynamic intent map built by `_classify_intent`: every available intent
keyed by its string value, plus the reserved `casual_greeting` key mapped to
the general-question intent. -/
def dynamic_intent_map (available : List IntentType) : List (Str × IntentType) :=
  available.map (fun i => (i.value, i)) ++
    [(casualGreetingKey, IntentType.general_question)]

/-- Lookup `dynamic_intent_map.get(intent_str, IntentType.GENERAL_QUESTION)`:
a missing or unknown key falls back to the general-question intent. -/
def lookup_intent (available : List IntentType) (s : Option Str) : IntentType :=
  match s with
  | none => IntentType.general_question
  | some key =>
    match (dynamic_intent_map available).find? (fun p => p.1 == key) with
    | some p => p.2
    | none => IntentType.general_question

/-- Line-level body of the `try` block of `RouterAgent._classify_intent`: run
the parsing loop over the reply's lines and resolve the intent through the
dynamic intent map. -/
def parse_classification_lines (available : List IntentType)
    (lines : List Str) : IntentType × Bool :=
  let st := classify_lines lines
  (lookup_intent available st.1, st.2)

/-- Body of the `try` block of `RouterAgent._classify_intent` once the oracle
reply text is at hand: strip and lower-case the reply, split into lines, run
the parsing loop, and resolve the intent through the dynamic intent map. -/
def parse_classification (available : List IntentType) (text : Str) :
    IntentType × Bool :=
  parse_classification_lines available (splitSep newlineSep (pyLower (pyStrip text)))

/-- Method `RouterAgent._classify_intent`: with no available intents the
oracle is not consulted and the result is `(general_question, False)`; any
exception in the `try` block (modelled by an `.error` oracle outcome) yields
`(general_question, True)`; otherwise the reply text is parsed. -/
def classify_intent (available : List IntentType) (oracle : Except Str Str) :
    IntentType × Bool :=
  if available.isEmpty then (IntentType.general_question, false)
  else
    match oracle with
    | .error _ => (IntentType.general_question, true)
    | .ok text => parse_classification available text

/-- Modelled from the spec: the claim's parsing step, matching each label as a
prefix of the line ("matched case-insensitively by a label prefix") instead of
by substring containment.  Used only to compare the spec's wording with the
code's parsing. -/
def classifyStepSpec (st : Option Str × Bool) (line : Str) : Option Str × Bool :=
  if intentLabel.isPrefixOf line then
    (some (pyStrip (line.drop intentLabel.length)), st.2)
  else if needsLabel.isPrefixOf line then
    (st.1, pyStrip (line.drop needsLabel.length) == trueWord)
  else st

/-- Modelled from the spec: classification parsing with label-prefix matching,
over the same stripped, lower-cased, line-split reply as the code. -/
def parse_classification_spec (available : List IntentType) (text : Str) :
    IntentType × Bool :=
  let st := (splitSep newlineSep (pyLower (pyStrip text))).foldl
    classifyStepSpec (none, true)
  (lookup_intent available st.1, st.2)

/-- Metadata value inside a handler-result envelope. -/
inductive MetaVal where
  | boolV : Bool → MetaVal
  | strV : String → MetaVal
  | intV : Int → MetaVal
deriving DecidableEq, Repr

/-- Key of the error flag in a synthetic error result. -/
def errorKey : String := "error"

/-- Result envelope every handler produces: the `{"response", "agent",
"metadata"}` dict built throughout `router.py`. -/
structure HandlerResult where
  response : String
  agent : String
  metadata : List (String × MetaVal)
deriving DecidableEq, Repr

/-- One dispatched handler as `_execute_agents` sees it: its name and the
outcome of its `process` coroutine, exceptions being captured by
`asyncio.gather(..., return_exceptions=True)`. -/
structure AgentRun where
  name : String
  outcome : Except String HandlerResult

/-- Synthetic result `_execute_agents` builds for a handler that raised. -/
def errorResult (nm msg : String) : HandlerResult :=
  { response := "Error from " ++ nm ++ ": " ++ msg
  , agent := nm
  , metadata := [(errorKey, MetaVal.boolV true)] }

/-- Method `RouterAgent._execute_agents`: one result per dispatched handler,
in dispatch order; a raised exception becomes the synthetic error result,
every other outcome is appended unmodified. -/
def execute_agents (agents : List AgentRun) : List HandlerResult :=
  agents.map (fun a =>
    match a.outcome with
    | .error msg => errorResult a.name msg
    | .ok r => r)

/-- Separator joining raw texts in the aggregation fallback. -/
def slashSep : String := " / "

/-- Method `RouterAgent._combine_responses`: a single result passes its text
through; otherwise the synthesis oracle's reply is returned, or, when the
oracle call fails, the raw handler texts joined by `" / "`. -/
def combine_responses (responses : List HandlerResult)
    (oracle : Except String String) : String :=
  match responses with
  | [r] => r.response
  | rs =>
    match oracle with
    | .ok t => t
    | .error _ => joinWith slashSep (rs.map (fun r => r.response))

/-- Label of the match field in a comparison reply. -/
def matchLabel : Str := "match:".data

/-- Label of the confidence field in a comparison reply. -/
def confLabel : Str := "confidence:".data

/-- Label of the differences field in a comparison reply. -/
def diffLabel : Str := "differences:".data

/-- Label of the similarities field in a comparison reply. -/
def simLabel : Str := "similarities:".data

/-- Label of the reason field in a comparison reply. -/
def reasonLabel : Str := "reason:".data

/-- Word marking an empty differences list. -/
def noneWord : Str := "none".data

/-- Separator of list items in differences and similarities fields. -/
def commaSep : Str := ",".data

/-- Message of the `IndexError` raised by an out-of-range list index. -/
def indexErrMsg : String := "list index out of range"

/-- Semantic-comparison verdict: the result dict of
`TestingAgent._compare_responses`. -/
structure Verdict where
  matched : Bool
  confidence : ℚ
  reason : Str
  differences : List Str
  similarities : List Str
deriving DecidableEq, Repr

/-- Reason string preset in the verdict before parsing. -/
def defaultReason : Str := "Could not parse comparison".data

/-- Initial verdict dict of `_compare_responses`, before the parsing loop. -/
def initVerdict : Verdict :=
  { matched := false
  , confidence := 0
  , reason := defaultReason
  , differences := []
  , similarities := [] }

/-- Text prepended to an exception message in the verdict's reason. -/
def compErrHead : Str := "Comparison error: ".data

/-- Verdict returned by the `except` branch of `_compare_responses`. -/
def errVerdict (msg : String) : Verdict :=
  { matched := false
  , confidence := 0
  , reason := compErrHead ++ msg.data
  , differences := []
  , similarities := [] }

/-- Helper for `pySplitWs`, carrying the current word reversed. -/
def pySplitWsGo : Str → Str → List Str
  | [], acc => if acc.isEmpty then [] else [acc.reverse]
  | c :: rest, acc =>
    if isPySpace c then
      if acc.isEmpty then pySplitWsGo rest [] else acc.reverse :: pySplitWsGo rest []
    else pySplitWsGo rest (c :: acc)

/-- Python `str.split()` with no argument: split on whitespace runs, dropping
empty pieces. -/
def pySplitWs (s : Str) : List Str := pySplitWsGo s []

/-- Numeric value of a digit string. -/
def natVal (ds : Str) : ℕ :=
  ds.foldl (fun a c => 10 * a + (c.toNat - 48)) 0

/-- Python `float(s)` on plain decimal notation (optional sign, digits, one
optional point), the only shapes the comparison rubric elicits; any other
shape is a `ValueError`, modelled as `none`.  The value is exact: the string
`a.b` denotes the rational `±(a·10^k + b) / 10^k` with `k` fraction digits. -/
def pyFloat? (s : Str) : Option ℚ :=
  let t := pyStrip s
  let sgn : Int × Str :=
    match t with
    | '-' :: r => (-1, r)
    | '+' :: r => (1, r)
    | r => (1, r)
  let ip := sgn.2.takeWhile Char.isDigit
  let r1 := sgn.2.dropWhile Char.isDigit
  match r1 with
  | [] => if ip.isEmpty then none else some (mkRat (sgn.1 * (natVal ip : Int)) 1)
  | '.' :: fr =>
    let fp := fr.takeWhile Char.isDigit
    let r2 := fr.dropWhile Char.isDigit
    if !r2.isEmpty then none
    else if ip.isEmpty && fp.isEmpty then none
    else
      some (mkRat (sgn.1 * ((natVal ip * 10 ^ fp.length + natVal fp : ℕ) : Int))
        (10 ^ fp.length))
  | _ => none

/-- Cleanup of a differences or similarities field:
`[d.strip() for d in text.split(',') if d.strip()]`. -/
def splitCommaClean (t : Str) : List Str :=
  ((splitSep commaSep t).map pyStrip).filter (fun d => !d.isEmpty)

/-- One iteration of the parsing loop of `_compare_responses` on one reply
line.  Labels are searched in the lower-cased stripped line, but the value is
cut out of the original line, so a label whose original spelling differs in
case raises `IndexError` in the differences, similarities and reason branches
(the confidence branch guards its extraction with an inner `try`). -/
def compareStep (st : Verdict) (line : Str) : Except String Verdict :=
  let ll := pyStrip (pyLower line)
  if containsSub matchLabel ll then
    .ok { st with matched := containsSub trueWord ll }
  else if containsSub confLabel ll then
    .ok (match splitSep confLabel line with
      | _ :: p1 :: _ =>
        match pySplitWs (pyStrip p1) with
        | w :: _ =>
          match pyFloat? w with
          | some q => { st with confidence := q }
          | none => st
        | [] => st
      | _ => st)
  else if containsSub diffLabel ll then
    match splitSep diffLabel line with
    | _ :: p1 :: _ =>
      let dt := pyStrip p1
      if pyLower dt == noneWord then .ok st
      else .ok { st with differences := splitCommaClean dt }
    | _ => .error indexErrMsg
  else if containsSub simLabel ll then
    match splitSep simLabel line with
    | _ :: p1 :: _ => .ok { st with similarities := splitCommaClean (pyStrip p1) }
    | _ => .error indexErrMsg
  else if containsSub reasonLabel ll then
    match splitSep reasonLabel line with
    | _ :: p1 :: _ => .ok { st with reason := pyStrip p1 }
    | _ => .error indexErrMsg
  else .ok st

/-- The parsing loop of `_compare_responses` over the reply lines; an
`IndexError` escaping a loop iteration aborts the whole loop. -/
def parse_verdict : Verdict → List Str → Except String Verdict
  | st, [] => .ok st
  | st, l :: ls =>
    match compareStep st l with
    | .ok st2 => parse_verdict st2 ls
    | .error e => .error e

/-- Method `TestingAgent._compare_responses`: an oracle failure or an
exception escaping the parsing loop lands in the `except` branch, producing
the error verdict; otherwise the parsed verdict is returned.  The function is
total: no outcome raises. -/
def compare_responses (oracle : Except String Str) : Verdict :=
  match oracle with
  | .error e => errVerdict e
  | .ok text =>
    match parse_verdict initVerdict (splitSep newlineSep (pyStrip text)) with
    | .ok v => v
    | .error e => errVerdict e

/-- Per-case status of `TestingAgent._run_single_test`. -/
inductive CaseStatus where
  | PASS
  | FAIL
  | ERROR
deriving DecidableEq, BEq, Repr

/-- Status computed by `_run_single_test`: an exception anywhere in the case
yields ERROR; otherwise PASS exactly when the comparison matched with
confidence above 0.7, else FAIL. -/
def run_single_status (outcome : Except String Verdict) : CaseStatus :=
  match outcome with
  | .error _ => CaseStatus.ERROR
  | .ok comp =>
    if comp.matched && decide (mkRat 7 10 < comp.confidence) then CaseStatus.PASS
    else CaseStatus.FAIL

/-- Aggregate counters returned by `TestingAgent._run_all_tests`. -/
structure SuiteResult where
  total_tests : Nat
  passed : Nat
  failed : Nat
  errors : Nat
  pass_rate : ℚ
deriving DecidableEq, Repr

/-- Method `TestingAgent._run_all_tests` over the per-case outcomes, in corpus
order: count the statuses and compute `passed / total`, or `0.0` for an empty
corpus. -/
def run_all_tests (outcomes : List (Except String Verdict)) : SuiteResult :=
  let results := outcomes.map run_single_status
  let passed := (results.filter (fun r => r == CaseStatus.PASS)).length
  let failed := (results.filter (fun r => r == CaseStatus.FAIL)).length
  let errs := (results.filter (fun r => r == CaseStatus.ERROR)).length
  { total_tests := results.length
  , passed := passed
  , failed := failed
  , errors := errs
  , pass_rate := if results.isEmpty then 0 else mkRat passed results.length }

/-! ### Registry lemmas -/

theorem dictInsert_keys (d : Registry) (k : String) (v : AgentMetadata) :
    (dictInsert d k v).map Prod.fst =
      if k ∈ d.map Prod.fst then d.map Prod.fst else d.map Prod.fst ++ [k] := by
  induction d with
  | nil => simp [dictInsert]
  | cons hd tl ih =>
    obtain ⟨k', v'⟩ := hd
    by_cases h : k' = k
    · subst h
      simp [dictInsert]
    · simp only [dictInsert, if_neg h, List.map_cons, ih]
      by_cases hm : k ∈ tl.map Prod.fst
      · simp [hm, Ne.symm h]
      · simp [hm, Ne.symm h]

theorem dictInsert_keys_nodup (d : Registry) (k : String) (v : AgentMetadata)
    (h : (d.map Prod.fst).Nodup) : ((dictInsert d k v).map Prod.fst).Nodup := by
  rw [dictInsert_keys]
  by_cases hm : k ∈ d.map Prod.fst
  · simpa [hm] using h
  · simp [hm, List.nodup_append, h, List.disjoint_singleton]

theorem dictInsert_filter_eq (d : Registry) (k : String) (v : AgentMetadata)
    (h : (d.map Prod.fst).Nodup) :
    (dictInsert d k v).filter (fun p => p.1 == k) = [(k, v)] := by
  induction d with
  | nil => simp [dictInsert]
  | cons hd tl ih =>
    obtain ⟨k', v'⟩ := hd
    simp only [List.map_cons, List.nodup_cons] at h
    by_cases hk : k' = k
    · subst hk
      have hnone : tl.filter (fun p => p.1 == k') = [] := by
        rw [List.filter_eq_nil_iff]
        intro p hp hpk
        exact h.1 (List.mem_map.mpr ⟨p, hp, by simpa using hpk⟩)
      simp [dictInsert, hnone]
    · simp [dictInsert, hk, ih h.2, Ne.symm]

theorem find?_dictInsert (d : Registry) (k : String) (v : AgentMetadata) :
    (dictInsert d k v).find? (fun p => p.1 == k) = some (k, v) := by
  induction d with
  | nil => simp [dictInsert]
  | cons hd tl ih =>
    obtain ⟨k', v'⟩ := hd
    by_cases hk : k' = k
    · subst hk
      simp [dictInsert]
    · simp [dictInsert, hk, ih]

theorem dictInsert_eq_map_of_mem (d : Registry) (k : String) (v : AgentMetadata)
    (hnd : (d.map Prod.fst).Nodup) (hm : k ∈ d.map Prod.fst) :
    dictInsert d k v = d.map (fun p => if p.1 = k then (k, v) else p) := by
  induction d with
  | nil => simp at hm
  | cons hd tl ih =>
    obtain ⟨k', v'⟩ := hd
    simp only [List.map_cons, List.nodup_cons] at hnd
    by_cases hk : k' = k
    · subst hk
      have htl : tl.map (fun p => if p.1 = k' then (k', v) else p) = tl := by
        conv_rhs => rw [← List.map_id tl]
        apply List.map_congr_left
        intro p hp
        have : p.1 ≠ k' := fun hpe => hnd.1 (List.mem_map.mpr ⟨p, hp, hpe⟩)
        simp [this]
      simp [dictInsert, htl]
    · have hm' : k ∈ tl.map Prod.fst := by
        rcases List.mem_cons.mp hm with h | h
        · exact absurd h.symm hk
        · exact h
      simp [dictInsert, hk, ih hnd.2 hm']

/-- C7: handler names are unique across the registry.  Starting from any
registry with distinct keys, registering metadata twice under one name keeps
the keys distinct, leaves exactly one entry under that name, and that entry
carries the second registration's metadata (last write wins). -/
theorem registry_reregister_last_write_wins
    (d : Registry) (m1 m2 : AgentMetadata)
    (hnd : (d.map Prod.fst).Nodup) (_hname : m1.name = m2.name) :
    ((register (register d m1) m2).map Prod.fst).Nodup ∧
    ((register (register d m1) m2).filter
        (fun p => p.1 == m2.name)).map Prod.snd = [m2] ∧
    get_agent (register (register d m1) m2) m2.name = some m2 := by
  have hnd1 : ((register d m1).map Prod.fst).Nodup :=
    dictInsert_keys_nodup d m1.name m1 hnd
  refine ⟨dictInsert_keys_nodup _ m2.name m2 hnd1, ?_, ?_⟩
  · rw [register, dictInsert_filter_eq (register d m1) m2.name m2 hnd1]
    simp
  · rw [get_agent, register, find?_dictInsert]

/-- Witness for C7 at a concrete registry: registering the name `x` twice
leaves the second metadata as the unique entry under `x`. -/
theorem registry_reregister_last_write_wins_witness :
    get_agent (register (register []
        ⟨"x", "first", [], [], 0, false, 1⟩)
        ⟨"x", "second", [IntentType.product_info], [], 2, true, 2⟩) "x" =
      some ⟨"x", "second", [IntentType.product_info], [], 2, true, 2⟩ :=
  (registry_reregister_last_write_wins []
    ⟨"x", "first", [], [], 0, false, 1⟩
    ⟨"x", "second", [IntentType.product_info], [], 2, true, 2⟩
    (by decide) (by decide)).2.2

/-- C10: re-registering an already-registered name rewrites only that entry,
in place: the overwritten registry is the pointwise replacement of the old
entry, key order is exactly the old key order, and intent lookup traverses the
entries in the unchanged registration order with the new metadata substituted
at the old position. -/
theorem register_existing_frame (d : Registry) (m : AgentMetadata)
    (hnd : (d.map Prod.fst).Nodup) (hm : m.name ∈ d.map Prod.fst) :
    register d m = d.map (fun p => if p.1 = m.name then (m.name, m) else p) ∧
    (register d m).map Prod.fst = d.map Prod.fst ∧
    (∀ i : IntentType,
      find_agents_by_intent (register d m) i =
        (d.map (fun p => if p.1 = m.name then m else p.2)).filter
          (fun a => a.intents.contains i)) := by
  have h1 : register d m = d.map (fun p => if p.1 = m.name then (m.name, m) else p) :=
    dictInsert_eq_map_of_mem d m.name m hnd hm
  have h2 : (register d m).map Prod.snd =
      d.map (fun p => if p.1 = m.name then m else p.2) := by
    rw [h1, List.map_map]
    apply List.map_congr_left
    intro p _
    by_cases hpk : p.1 = m.name <;> simp [hpk]
  refine ⟨h1, ?_, ?_⟩
  · rw [h1, List.map_map]
    apply List.map_congr_left
    intro p _
    by_cases hpk : p.1 = m.name <;> simp [hpk]
  · intro i
    rw [find_agents_by_intent, h2]

/-- Witness for C10 at a concrete registry: overwriting the entry `x` keeps
the key order `[x, y]` unchanged. -/
theorem register_existing_frame_witness :
    (register [("x", ⟨"x", "old", [IntentType.product_info], [], 1, false, 1⟩),
               ("y", ⟨"y", "", [IntentType.product_info], [], 1, false, 2⟩)]
        ⟨"x", "new", [], [], 9, false, 3⟩).map Prod.fst = ["x", "y"] :=
  (register_existing_frame
    [("x", ⟨"x", "old", [IntentType.product_info], [], 1, false, 1⟩),
     ("y", ⟨"y", "", [IntentType.product_info], [], 1, false, 2⟩)]
    ⟨"x", "new", [], [], 9, false, 3⟩ (by decide) (by decide)).2.1

/-! ### Selection (C1) -/

/-- C1: with more than one candidate, selection works on the stable
priority-descending sort: the result has at most two entries, every selected
instance belongs to a candidate of maximal priority (so strictly lower
priorities are never selected), and, writing the sort as `p :: s :: rest`, the
selection is the top instance together with the second exactly when the second
priority ties the top. -/
theorem select_agents_tie_break (l : List AgentMetadata) (h : 1 < l.length) :
    (select_agents l).length ≤ 2 ∧
    (∀ x ∈ select_agents l, ∃ c ∈ l, c.agent_instance = x ∧
      ∀ d ∈ l, d.priority ≤ c.priority) ∧
    ∃ p s rest, sortByPriorityDesc l = p :: s :: rest ∧ p ∈ l ∧
      (∀ c ∈ l, c.priority ≤ p.priority) ∧
      select_agents l = (if s.priority = p.priority
        then [p.agent_instance, s.agent_instance] else [p.agent_instance]) := by
  match l, h with
  | a :: b :: t, _ =>
    have hperm : List.Perm (sortByPriorityDesc (a :: b :: t)) (a :: b :: t) :=
      List.perm_insertionSort prioGE (a :: b :: t)
    have hsorted : List.Sorted prioGE (sortByPriorityDesc (a :: b :: t)) :=
      List.sorted_insertionSort prioGE (a :: b :: t)
    have hlen : (sortByPriorityDesc (a :: b :: t)).length = t.length + 2 := by
      simpa using hperm.length_eq
    obtain ⟨p, s, rest, hs⟩ :
        ∃ p s rest, sortByPriorityDesc (a :: b :: t) = p :: s :: rest := by
      rcases hsort : sortByPriorityDesc (a :: b :: t) with _ | ⟨p, _ | ⟨s, rest⟩⟩
      · rw [hsort] at hlen; simp at hlen
      · rw [hsort] at hlen; simp at hlen
      · exact ⟨p, s, rest, rfl⟩
    rw [hs] at hperm hsorted
    have hpmem : p ∈ a :: b :: t := hperm.subset (List.mem_cons_self p _)
    have hsmem : s ∈ a :: b :: t :=
      hperm.subset (List.mem_cons_of_mem p (List.mem_cons_self s rest))
    have hmax : ∀ c ∈ a :: b :: t, c.priority ≤ p.priority := by
      intro c hc
      rcases List.mem_cons.mp (hperm.mem_iff.mpr hc) with hcp | hcs
      · exact hcp ▸ le_refl _
      · exact List.rel_of_sorted_cons hsorted c hcs
    have hsel : select_agents (a :: b :: t) =
        (if s.priority = p.priority
          then [p.agent_instance, s.agent_instance] else [p.agent_instance]) := by
      simp only [select_agents, hs]
    refine ⟨?_, ?_, p, s, rest, hs, hpmem, hmax, hsel⟩
    · rw [hsel]
      by_cases hq : s.priority = p.priority <;> simp [hq]
    · intro x hx
      rw [hsel] at hx
      by_cases hq : s.priority = p.priority
      · rw [if_pos hq] at hx
        rcases List.mem_cons.mp hx with hxp | hxs
        · exact ⟨p, hpmem, hxp.symm, hmax⟩
        · have hxs' : x = s.agent_instance := by simpa using hxs
          exact ⟨s, hsmem, hxs'.symm, fun d hd => hq ▸ hmax d hd⟩
      · rw [if_neg hq] at hx
        have hxp : x = p.agent_instance := by simpa using hx
        exact ⟨p, hpmem, hxp.symm, hmax⟩

/-- Witness for C1 at priorities `[5, 5, 3]`: exactly the two priority-5
instances are selected, never the priority-3 one. -/
theorem select_agents_tie_break_witness :
    (select_agents
      [⟨"a", "", [], [], 5, false, 1⟩, ⟨"b", "", [], [], 5, false, 2⟩,
       ⟨"c", "", [], [], 3, false, 3⟩]).length ≤ 2 ∧
    select_agents
      [⟨"a", "", [], [], 5, false, 1⟩, ⟨"b", "", [], [], 5, false, 2⟩,
       ⟨"c", "", [], [], 3, false, 3⟩] = [1, 2] :=
  ⟨(select_agents_tie_break
      [⟨"a", "", [], [], 5, false, 1⟩, ⟨"b", "", [], [], 5, false, 2⟩,
       ⟨"c", "", [], [], 3, false, 3⟩] (by decide)).1,
   by decide⟩

/-! ### Dispatch isolation (C2) -/

/-- C2: dispatch produces exactly one result per dispatched handler, in
dispatch order: a handler whose `process` raised is replaced at its position
by the synthetic error result `{response: "Error from <name>: <message>",
agent: name, metadata: {error: true}}`, while every other position carries its
handler's genuine output unmodified. -/
theorem execute_agents_isolation (agents : List AgentRun) :
    (execute_agents agents).length = agents.length ∧
    (∀ (i : ℕ) (a : AgentRun) (msg : String),
      agents[i]? = some a → a.outcome = .error msg →
      (execute_agents agents)[i]? = some (errorResult a.name msg)) ∧
    (∀ (i : ℕ) (a : AgentRun) (r : HandlerResult),
      agents[i]? = some a → a.outcome = .ok r →
      (execute_agents agents)[i]? = some r) := by
  refine ⟨by simp [execute_agents], ?_, ?_⟩
  · intro i a msg ha hout
    simp [execute_agents, List.getElem?_map, ha, hout]
  · intro i a r ha hout
    simp [execute_agents, List.getElem?_map, ha, hout]

/-- Witness for C2: of two dispatched handlers the second raises; its slot
holds the synthetic error result and the first slot the genuine output. -/
theorem execute_agents_isolation_witness :
    (execute_agents
      [⟨"knowledge_agent", Except.ok ⟨"genuine answer", "knowledge_agent", []⟩⟩,
       ⟨"support_agent", Except.error "boom"⟩])[1]? =
        some (errorResult "support_agent" "boom") ∧
    (execute_agents
      [⟨"knowledge_agent", Except.ok ⟨"genuine answer", "knowledge_agent", []⟩⟩,
       ⟨"support_agent", Except.error "boom"⟩])[0]? =
        some ⟨"genuine answer", "knowledge_agent", []⟩ :=
  ⟨(execute_agents_isolation
      [⟨"knowledge_agent", Except.ok ⟨"genuine answer", "knowledge_agent", []⟩⟩,
       ⟨"support_agent", Except.error "boom"⟩]).2.1 1
      ⟨"support_agent", Except.error "boom"⟩ "boom" rfl rfl,
   (execute_agents_isolation
      [⟨"knowledge_agent", Except.ok ⟨"genuine answer", "knowledge_agent", []⟩⟩,
       ⟨"support_agent", Except.error "boom"⟩]).2.2 0
      ⟨"knowledge_agent", Except.ok ⟨"genuine answer", "knowledge_agent", []⟩⟩
      ⟨"genuine answer", "knowledge_agent", []⟩ rfl rfl⟩

/-! ### Classification fault handling (C4) -/

/-- C4: classification never propagates a fault: any exception in the
classification `try` block yields `(general_question, needs_agent = True)`;
and with zero available intents the result is `(general_question, False)` —
the DirectReply path — independently of the oracle, which is therefore never
consulted. -/
theorem classify_intent_fault_fallback
    (available : List IntentType) (oracle : Except Str Str) :
    (∀ e, oracle = .error e →
      classify_intent available oracle =
        (if available.isEmpty then (IntentType.general_question, false)
         else (IntentType.general_question, true))) ∧
    (available = [] →
      classify_intent available oracle = (IntentType.general_question, false) ∧
      ∀ o2 : Except Str Str,
        classify_intent available oracle = classify_intent available o2) := by
  constructor
  · intro e he
    subst he
    by_cases hne : available.isEmpty <;> simp [classify_intent, hne]
  · intro h
    subst h
    constructor
    · simp [classify_intent]
    · intro o2
      simp [classify_intent]

/-- Witness for C4: a failing oracle with one available intent yields
`(general_question, True)`; an empty intent set yields
`(general_question, False)` whatever the oracle would have said. -/
theorem classify_intent_fault_fallback_witness :
    classify_intent [IntentType.product_info] (Except.error "oracle down".data) =
      (IntentType.general_question, true) ∧
    classify_intent [] (Except.error "oracle down".data) =
      (IntentType.general_question, false) := by
  constructor
  · have h := (classify_intent_fault_fallback [IntentType.product_info]
      (Except.error "oracle down".data)).1 "oracle down".data rfl
    simpa using h
  · exact ((classify_intent_fault_fallback []
      (Except.error "oracle down".data)).2 rfl).1

/-! ### Aggregation (C8) -/

/-- C8: aggregation of exactly one handler result passes its text through
unchanged; with any other number of results the synthesis oracle's reply is
returned, and when that oracle call fails the raw handler texts are joined
with the separator `" / "`.  Totality of the function embodies that
aggregation never fails outright. -/
theorem combine_responses_fallback :
    (∀ (r : HandlerResult) (oracle : Except String String),
      combine_responses [r] oracle = r.response) ∧
    (∀ (rs : List HandlerResult) (e : String), 2 ≤ rs.length →
      combine_responses rs (.error e) =
        joinWith slashSep (rs.map (fun r => r.response))) ∧
    (∀ (rs : List HandlerResult) (t : String), rs.length ≠ 1 →
      combine_responses rs (.ok t) = t) := by
  refine ⟨fun r oracle => rfl, ?_, ?_⟩
  · intro rs e h
    match rs, h with
    | a :: b :: u, _ => rfl
  · intro rs t h
    match rs, h with
    | [], _ => rfl
    | a :: b :: u, _ => rfl

/-- Witness for C8: a lone result's text survives aggregation unchanged, and
two results with a failing oracle degrade to the joined raw texts. -/
theorem combine_responses_fallback_witness :
    combine_responses [⟨"only answer", "knowledge_agent", []⟩]
      (Except.error "oracle down") = "only answer" ∧
    combine_responses [⟨"first", "knowledge_agent", []⟩,
      ⟨"second", "support_agent", []⟩] (Except.error "oracle down") =
      "first / second" := by
  constructor
  · exact combine_responses_fallback.1 ⟨"only answer", "knowledge_agent", []⟩
      (Except.error "oracle down")
  · have h := combine_responses_fallback.2.1
      [⟨"first", "knowledge_agent", []⟩, ⟨"second", "support_agent", []⟩]
      "oracle down" (by decide)
    simpa using h

/-! ### Suite arithmetic (C6) -/

theorem status_filter_partition (rs : List CaseStatus) :
    (rs.filter (fun r => r == CaseStatus.PASS)).length +
    (rs.filter (fun r => r == CaseStatus.FAIL)).length +
    (rs.filter (fun r => r == CaseStatus.ERROR)).length = rs.length := by
  induction rs with
  | nil => rfl
  | cons r tl ih =>
    cases r <;> simp +decide [List.filter_cons] <;> omega

/-- C6: suite arithmetic: the total equals the number of corpus cases, the
three counters count the cases whose computed status is PASS, FAIL and ERROR
respectively and sum to the total, the pass rate is `passed / total` with
`0.0` for an empty corpus, and the spec's three-case example evaluates to
`{total: 3, passed: 1, failed: 1, errored: 1, passRate: 1/3}`. -/
theorem run_all_tests_arithmetic (outcomes : List (Except String Verdict)) :
    (run_all_tests outcomes).total_tests = outcomes.length ∧
    (run_all_tests outcomes).passed =
      outcomes.countP (fun o => run_single_status o == CaseStatus.PASS) ∧
    (run_all_tests outcomes).failed =
      outcomes.countP (fun o => run_single_status o == CaseStatus.FAIL) ∧
    (run_all_tests outcomes).errors =
      outcomes.countP (fun o => run_single_status o == CaseStatus.ERROR) ∧
    (run_all_tests outcomes).passed + (run_all_tests outcomes).failed +
      (run_all_tests outcomes).errors = (run_all_tests outcomes).total_tests ∧
    (run_all_tests outcomes).pass_rate =
      (if outcomes.isEmpty then 0
       else ((run_all_tests outcomes).passed : ℚ) /
         ((run_all_tests outcomes).total_tests : ℚ)) ∧
    run_all_tests
      [Except.ok ⟨true, mkRat 9 10, [], [], []⟩,
       Except.ok ⟨false, 0, [], [], []⟩,
       Except.error "agent crashed"] =
      ⟨3, 1, 1, 1, mkRat 1 3⟩ := by
  refine ⟨by simp [run_all_tests], ?_, ?_, ?_, ?_, ?_, by decide⟩
  · simp only [run_all_tests, List.countP_eq_length_filter, List.filter_map,
      List.length_map]
    rfl
  · simp only [run_all_tests, List.countP_eq_length_filter, List.filter_map,
      List.length_map]
    rfl
  · simp only [run_all_tests, List.countP_eq_length_filter, List.filter_map,
      List.length_map]
    rfl
  · simpa [run_all_tests] using status_filter_partition (outcomes.map run_single_status)
  · rcases Classical.em (outcomes = []) with h | h
    · subst h
      simp [run_all_tests]
    · have hie : outcomes.isEmpty = false := by
        simp [List.isEmpty_iff, h]
      have hne : (outcomes.map run_single_status).isEmpty = false := by
        simp [List.isEmpty_iff, h]
      simp only [run_all_tests, hne, hie, Bool.false_eq_true, if_false,
        List.length_map]
      rw [Rat.mkRat_eq_divInt, Rat.divInt_eq_div]
      push_cast
      rfl

/-! ### Comparator defaults (C5) and confidence bounds (C9) -/

/-- Test that a reply line carries none of the five comparison labels, so the
parsing loop ignores it. -/
def lineUnlabeled (l : Str) : Bool :=
  let ll := pyStrip (pyLower l)
  !(containsSub matchLabel ll || containsSub confLabel ll ||
    containsSub diffLabel ll || containsSub simLabel ll ||
    containsSub reasonLabel ll)

theorem compareStep_unlabeled (st : Verdict) (l : Str)
    (h : lineUnlabeled l = true) : compareStep st l = .ok st := by
  unfold lineUnlabeled at h
  simp only [Bool.not_eq_true', Bool.or_eq_false_iff] at h
  obtain ⟨⟨⟨⟨h1, h2⟩, h3⟩, h4⟩, h5⟩ := h
  unfold compareStep
  simp [h1, h2, h3, h4, h5]

theorem parse_verdict_unlabeled (st : Verdict) (lines : List Str)
    (h : ∀ l ∈ lines, lineUnlabeled l = true) :
    parse_verdict st lines = .ok st := by
  induction lines with
  | nil => rfl
  | cons l ls ih =>
    have hstep := compareStep_unlabeled st l (h l (List.mem_cons_self l ls))
    simp only [parse_verdict, hstep]
    exact ih fun x hx => h x (List.mem_cons_of_mem l hx)

/-- C5: the comparison is total — every oracle outcome yields a verdict, never
an exception — and every failure path is the default: a comparator error
yields the error verdict with match = false and confidence = 0; a reply whose
parsing loop aborts yields the same; and a reply none of whose lines carries a
label yields exactly the initial default verdict (match = false,
confidence = 0, reason "Could not parse comparison"). -/
theorem compare_responses_default (oracle : Except String Str) :
    (∀ e, oracle = .error e →
      compare_responses oracle = errVerdict e ∧
      (compare_responses oracle).matched = false ∧
      (compare_responses oracle).confidence = 0) ∧
    (∀ t e, oracle = .ok t →
      parse_verdict initVerdict (splitSep newlineSep (pyStrip t)) = .error e →
      compare_responses oracle = errVerdict e ∧
      (compare_responses oracle).matched = false ∧
      (compare_responses oracle).confidence = 0) ∧
    (∀ t, oracle = .ok t →
      (∀ l ∈ splitSep newlineSep (pyStrip t), lineUnlabeled l = true) →
      compare_responses oracle = initVerdict) := by
  refine ⟨?_, ?_, ?_⟩
  · intro e he
    subst he
    exact ⟨rfl, rfl, rfl⟩
  · intro t e ht hpv
    subst ht
    have hcr : compare_responses (Except.ok t) = errVerdict e := by
      simp only [compare_responses, hpv]
    exact ⟨hcr, by rw [hcr]; rfl, by rw [hcr]; rfl⟩
  · intro t ht hul
    subst ht
    simp only [compare_responses, parse_verdict_unlabeled initVerdict _ hul]

/-- Witness for C5: the unlabeled reply "garbage" yields the default verdict,
and a comparator error yields confidence 0. -/
theorem compare_responses_default_witness :
    compare_responses (Except.ok "garbage".data) = initVerdict ∧
    (compare_responses (Except.error "boom")).confidence = 0 :=
  ⟨(compare_responses_default (Except.ok "garbage".data)).2.2 "garbage".data
      rfl (by decide),
   ((compare_responses_default (Except.error "boom")).1 "boom" rfl).2.2⟩

/-- Confidence value a reply line would store, if any: the line must reach the
confidence branch of the loop (no match label, confidence label present) and
its original-case extraction and float parse must succeed. -/
def lineConf? (line : Str) : Option ℚ :=
  let ll := pyStrip (pyLower line)
  if !containsSub matchLabel ll && containsSub confLabel ll then
    match splitSep confLabel line with
    | _ :: p1 :: _ =>
      match pySplitWs (pyStrip p1) with
      | w :: _ => pyFloat? w
      | [] => none
    | _ => none
  else none

theorem compareStep_confidence (st : Verdict) (l : Str) (st2 : Verdict)
    (h : compareStep st l = .ok st2) :
    st2.confidence = st.confidence ∨ lineConf? l = some st2.confidence := by
  unfold compareStep at h
  by_cases h1 : containsSub matchLabel (pyStrip (pyLower l)) = true
  · simp only [h1, if_true, Except.ok.injEq] at h
    left
    rw [← h]
  · simp only [h1, Bool.false_eq_true, if_false] at h
    by_cases h2 : containsSub confLabel (pyStrip (pyLower l)) = true
    · simp only [h2, if_true, Except.ok.injEq] at h
      rcases hsp : splitSep confLabel l with _ | ⟨p0, _ | ⟨p1, ps⟩⟩ <;>
        simp only [hsp] at h
      · left; rw [← h]
      · left; rw [← h]
      · rcases hws : pySplitWs (pyStrip p1) with _ | ⟨w, ws⟩ <;>
          simp only [hws] at h
        · left; rw [← h]
        · rcases hf : pyFloat? w with _ | q <;> simp only [hf] at h
          · left; rw [← h]
          · right
            have hcond : (!containsSub matchLabel (pyStrip (pyLower l)) &&
                containsSub confLabel (pyStrip (pyLower l))) = true := by
              simp [h1, h2]
            simp only [lineConf?, hcond, if_true, hsp, hws, hf]
            rw [← h]
    · simp only [h2, Bool.false_eq_true, if_false] at h
      by_cases h3 : containsSub diffLabel (pyStrip (pyLower l)) = true
      · simp only [h3, if_true] at h
        rcases hsp : splitSep diffLabel l with _ | ⟨p0, _ | ⟨p1, ps⟩⟩ <;>
          simp only [hsp] at h
        · exact absurd h (by simp)
        · exact absurd h (by simp)
        · by_cases hn : (pyLower (pyStrip p1) == noneWord) = true <;>
            simp only [hn, Bool.false_eq_true, if_true, if_false,
              Except.ok.injEq] at h <;> (left; rw [← h])
      · simp only [h3, Bool.false_eq_true, if_false] at h
        by_cases h4 : containsSub simLabel (pyStrip (pyLower l)) = true
        · simp only [h4, if_true] at h
          rcases hsp : splitSep simLabel l with _ | ⟨p0, _ | ⟨p1, ps⟩⟩ <;>
            simp only [hsp] at h
          · exact absurd h (by simp)
          · exact absurd h (by simp)
          · simp only [Except.ok.injEq] at h
            left; rw [← h]
        · simp only [h4, Bool.false_eq_true, if_false] at h
          by_cases h5 : containsSub reasonLabel (pyStrip (pyLower l)) = true
          · simp only [h5, if_true] at h
            rcases hsp : splitSep reasonLabel l with _ | ⟨p0, _ | ⟨p1, ps⟩⟩ <;>
              simp only [hsp] at h
            · exact absurd h (by simp)
            · exact absurd h (by simp)
            · simp only [Except.ok.injEq] at h
              left; rw [← h]
          · simp only [h5, Bool.false_eq_true, if_false, Except.ok.injEq] at h
            left; rw [← h]

theorem parse_verdict_confidence (lines : List Str) (st v : Verdict)
    (h : parse_verdict st lines = .ok v)
    (hb : ∀ l ∈ lines, ∀ q : ℚ, lineConf? l = some q → 0 ≤ q ∧ q ≤ 1)
    (hst : 0 ≤ st.confidence ∧ st.confidence ≤ 1) :
    0 ≤ v.confidence ∧ v.confidence ≤ 1 := by
  induction lines generalizing st with
  | nil =>
    simp only [parse_verdict, Except.ok.injEq] at h
    rw [← h]
    exact hst
  | cons l ls ih =>
    simp only [parse_verdict] at h
    rcases hcs : compareStep st l with e | st2 <;> rw [hcs] at h
    · exact absurd h (by simp)
    · refine ih st2 h (fun x hx => hb x (List.mem_cons_of_mem l hx)) ?_
      rcases compareStep_confidence st l st2 hcs with heq | hconf
      · rw [heq]; exact hst
      · exact hb l (List.mem_cons_self l ls) st2.confidence hconf

/-- C9 counterexample: the oracle reply "confidence: 1.5" is parsed into a
verdict whose confidence is 3/2, outside [0,1] — the code stores the parsed
float unclamped. -/
theorem verdict_confidence_counterexample :
    (compare_responses (Except.ok "confidence: 1.5".data)).confidence =
      mkRat 3 2 ∧
    ¬(0 ≤ (compare_responses (Except.ok "confidence: 1.5".data)).confidence ∧
      (compare_responses (Except.ok "confidence: 1.5".data)).confidence ≤ 1) := by
  constructor
  · decide
  · decide

/-- C9 amended: the comparator's confidence is 0 on every failure path and
otherwise exactly the value parsed from a confidence line, unclamped; hence it
lies in [0,1] for every oracle outcome whose supplied confidence values lie in
[0,1], while an out-of-range value such as 1.5 passes through. -/
theorem verdict_confidence_amended (oracle : Except String Str)
    (hb : ∀ t, oracle = .ok t →
      ∀ l ∈ splitSep newlineSep (pyStrip t), ∀ q : ℚ,
        lineConf? l = some q → 0 ≤ q ∧ q ≤ 1) :
    0 ≤ (compare_responses oracle).confidence ∧
      (compare_responses oracle).confidence ≤ 1 := by
  cases oracle with
  | error e =>
    constructor <;> norm_num [compare_responses, errVerdict]
  | ok t =>
    rcases hpv : parse_verdict initVerdict (splitSep newlineSep (pyStrip t))
        with e | v
    · simp only [compare_responses, hpv]
      constructor <;> norm_num [errVerdict]
    · have hv := parse_verdict_confidence _ initVerdict v hpv (hb t rfl)
        (by norm_num [initVerdict])
      simpa [compare_responses, hpv] using hv

/-- Witness for C9 amended at a conforming reply: the parsed confidence 0.9
lies in [0, 1]. -/
theorem verdict_confidence_amended_witness :
    0 ≤ (compare_responses
        (Except.ok "match: true\nconfidence: 0.9".data)).confidence ∧
      (compare_responses
        (Except.ok "match: true\nconfidence: 0.9".data)).confidence ≤ 1 :=
  verdict_confidence_amended (Except.ok "match: true\nconfidence: 0.9".data)
    (by
      intro t ht
      cases ht
      intro l hl q hq
      have hsplit : splitSep newlineSep
          (pyStrip "match: true\nconfidence: 0.9".data) =
          ["match: true".data, "confidence: 0.9".data] := by decide
      rw [hsplit] at hl
      simp only [List.mem_cons, List.not_mem_nil, or_false] at hl
      rcases hl with h | h
      · have hnone : lineConf? "match: true".data = none := by decide
        rw [h, hnone] at hq
        cases hq
      · have hsome : lineConf? "confidence: 0.9".data = some (mkRat 9 10) := by
          decide
        rw [h, hsome] at hq
        cases hq
        constructor <;> decide)

/-! ### Classification parsing (C3) -/

/-- Last-occurrence scan for the intent field: a line containing the intent
label overwrites the accumulator with its stripped value. -/
def intentScanStep (acc : Option Str) (l : Str) : Option Str :=
  if containsSub intentLabel l
  then some (pyStrip ((splitSep intentLabel l).getD 1 [])) else acc

/-- Last-occurrence scan for the needs-agent field: a line containing the
needs-agent label but not the intent label overwrites the accumulator. -/
def needsScanStep (acc : Bool) (l : Str) : Bool :=
  if !containsSub intentLabel l && containsSub needsLabel l
  then pyStrip ((splitSep needsLabel l).getD 1 []) == trueWord else acc

/-- Value of the intent field over a whole reply: the last intent line wins. -/
def scanIntent (lines : List Str) : Option Str :=
  lines.foldl intentScanStep none

/-- Value of the needs-agent field over a whole reply. -/
def scanNeeds (lines : List Str) : Bool :=
  lines.foldl needsScanStep true

theorem classify_foldl_decomp (lines : List Str) (st : Option Str × Bool) :
    lines.foldl classifyStep st =
      (lines.foldl intentScanStep st.1, lines.foldl needsScanStep st.2) := by
  induction lines generalizing st with
  | nil => rfl
  | cons l ls ih =>
    simp only [List.foldl_cons]
    rw [ih]
    have h1 : (classifyStep st l).1 = intentScanStep st.1 l := by
      unfold classifyStep intentScanStep
      by_cases hi : containsSub intentLabel l = true
      · simp [hi]
      · by_cases hn : containsSub needsLabel l = true <;> simp [hi, hn]
    have h2 : (classifyStep st l).2 = needsScanStep st.2 l := by
      unfold classifyStep needsScanStep
      by_cases hi : containsSub intentLabel l = true
      · simp [hi]
      · by_cases hn : containsSub needsLabel l = true <;> simp [hi, hn]
    rw [h1, h2]

theorem lookup_intent_unknown (available : List IntentType) (s : Str)
    (h1 : ∀ i ∈ available, i.value ≠ s) (h2 : s ≠ casualGreetingKey) :
    lookup_intent available (some s) = IntentType.general_question := by
  have hfind : (dynamic_intent_map available).find? (fun p => p.1 == s) = none := by
    rw [List.find?_eq_none]
    intro p hp
    unfold dynamic_intent_map at hp
    rcases List.mem_append.mp hp with hp | hp
    · obtain ⟨i, hi, rfl⟩ := List.mem_map.mp hp
      simp [beq_iff_eq, h1 i hi]
    · have hp2 : p = (casualGreetingKey, IntentType.general_question) := by
        simpa using hp
      subst hp2
      simp only [beq_iff_eq]
      exact fun hh => h2 hh.symm
  simp only [lookup_intent, hfind]

/-- C3 counterexample: label matching is by substring containment and the
last matching line wins, not prefix matching of an order-independent pair of
fields.  On the reply `"x intent: product_info"` the code extracts the intent
from mid-line while the spec's label-prefix parsing would ignore the line and
fall back to the general-question intent; and a reply carrying the intent
label on two lines yields different intents under the two line orders. -/
theorem classification_label_counterexample :
    parse_classification [IntentType.product_info]
        "x intent: product_info".data ≠
      parse_classification_spec [IntentType.product_info]
        "x intent: product_info".data ∧
    parse_classification [IntentType.product_info, IntentType.customer_support]
        "intent: product_info\nintent: customer_support".data ≠
      parse_classification [IntentType.product_info, IntentType.customer_support]
        "intent: customer_support\nintent: product_info".data := by
  constructor
  · decide
  · decide

/-- C3 amended: classification parses the two fields from the stripped,
lower-cased reply line by line, matching each label case-insensitively by
substring containment, the two fields independently of each other and with
the last matching line winning; a line containing the intent label never
counts as a needs-agent line; lines containing neither label are ignored
wherever they stand; swapping an intent line with a needs-agent line leaves
the result unchanged, so the result is order-independent whenever each label
occurs in at most one line; and an unknown or missing intent value falls back
to the general-question intent. -/
theorem classification_parsing_amended (available : List IntentType) :
    (∀ lines : List Str,
      classify_lines lines = (scanIntent lines, scanNeeds lines)) ∧
    (∀ (ls1 ls2 : List Str) (l : Str), containsSub intentLabel l = false →
      containsSub needsLabel l = false →
      classify_lines (ls1 ++ l :: ls2) = classify_lines (ls1 ++ ls2)) ∧
    (∀ (ls1 ls2 : List Str) (a b : Str), containsSub intentLabel a = true →
      containsSub intentLabel b = false → containsSub needsLabel b = true →
      classify_lines (ls1 ++ a :: b :: ls2) =
        classify_lines (ls1 ++ b :: a :: ls2)) ∧
    (∀ lines : List Str, (∀ l ∈ lines, containsSub intentLabel l = false) →
      (parse_classification_lines available lines).1 =
        IntentType.general_question) ∧
    (∀ (lines : List Str) (s : Str), scanIntent lines = some s →
      (∀ i ∈ available, i.value ≠ s) → s ≠ casualGreetingKey →
      (parse_classification_lines available lines).1 =
        IntentType.general_question) ∧
    (∀ text : Str, parse_classification available text =
      parse_classification_lines available
        (splitSep newlineSep (pyLower (pyStrip text)))) := by
  refine ⟨?_, ?_, ?_, ?_, ?_, fun text => rfl⟩
  · intro lines
    exact classify_foldl_decomp lines (none, true)
  · intro ls1 ls2 l hi hn
    unfold classify_lines
    rw [List.foldl_append, List.foldl_append, List.foldl_cons]
    have hid : classifyStep (List.foldl classifyStep (none, true) ls1) l =
        List.foldl classifyStep (none, true) ls1 := by
      unfold classifyStep
      simp [hi, hn]
    rw [hid]
  · intro ls1 ls2 a b ha hb1 hb2
    unfold classify_lines
    rw [List.foldl_append, List.foldl_append, List.foldl_cons, List.foldl_cons,
      List.foldl_cons, List.foldl_cons]
    have hcomm : ∀ st : Option Str × Bool,
        classifyStep (classifyStep st a) b = classifyStep (classifyStep st b) a := by
      intro st
      unfold classifyStep
      simp [ha, hb1, hb2]
    rw [hcomm]
  · intro lines hno
    have hscan : scanIntent lines = none := by
      unfold scanIntent
      induction lines with
      | nil => rfl
      | cons l ls ih =>
        rw [List.foldl_cons]
        have hstep : intentScanStep none l = none := by
          unfold intentScanStep
          simp [hno l (List.mem_cons_self l ls)]
        rw [hstep]
        exact ih fun x hx => hno x (List.mem_cons_of_mem l hx)
    have hcl : classify_lines lines = (scanIntent lines, scanNeeds lines) :=
      classify_foldl_decomp lines (none, true)
    simp only [parse_classification_lines, hcl, hscan]
    rfl
  · intro lines s hscan h1 h2
    have hcl : classify_lines lines = (scanIntent lines, scanNeeds lines) :=
      classify_foldl_decomp lines (none, true)
    simp only [parse_classification_lines, hcl, hscan]
    exact lookup_intent_unknown available s h1 h2

/-- Witness for C3 amended: on the two-line reply the fields are read
independently, in either order, and an unrelated line is ignored. -/
theorem classification_parsing_amended_witness :
    classify_lines ["intent: product_info".data, "needs_agent: false".data] =
      classify_lines ["needs_agent: false".data, "intent: product_info".data] ∧
    classify_lines ["hello".data, "intent: product_info".data] =
      classify_lines ["intent: product_info".data] :=
  ⟨(classification_parsing_amended []).2.2.1 [] []
      "intent: product_info".data "needs_agent: false".data
      (by decide) (by decide) (by decide),
   (classification_parsing_amended []).2.1 [] ["intent: product_info".data]
      "hello".data (by decide) (by decide)⟩

end Legion
